import Mathlib

/-!
Verification development for the aax-mp3 conversion pipeline
(`src/aax-mp3.py`).  The Python source is shallowly embedded: pure string
manipulation becomes Lean functions on `String`/`List Char`; the
subprocess-driven pipeline (`convert`) becomes a pure function from the
conversion options and the two probe results (exit code plus captured
stdout chunks) to the ordered list of external-tool invocations it issues,
together with an optional error.  Python floats are modelled as `ℚ`;
Python's `json` decoding is modelled by an executable JSON parser
following the `json` module's grammar.  Unicode-only corners (non-ASCII
whitespace classes, `inf`/`nan` float literals, numeric-literal
underscores) are outside the modelled input range; no property below
exercises them.
-/

/-- The whitespace characters recognised by Python's `str.strip()` and the
regex class `\s` (ASCII range): space, tab, newline, carriage return,
vertical tab, form feed. -/
def pyIsSpace (c : Char) : Bool :=
  c = ' ' || c = '\t' || c = '\n' || c = '\r' || c = '\x0b' || c = '\x0c'

/-- The Windows-illegal filename characters of the regex
`[<>:"/\\|?*]` in `safe_name` (src/aax-mp3.py line 126). -/
def illegalChar (c : Char) : Bool :=
  c = '<' || c = '>' || c = ':' || c = '"' || c = '/' || c = '\\' ||
  c = '|' || c = '?' || c = '*'

/-- Drop trailing characters satisfying `p`. -/
def dropTrailing (p : Char → Bool) (cs : List Char) : List Char :=
  (cs.reverse.dropWhile p).reverse

/-- Python `str.strip()` on a list of characters: drop leading and
trailing whitespace. -/
def stripList (cs : List Char) : List Char :=
  dropTrailing pyIsSpace (cs.dropWhile pyIsSpace)

/-- Embedding of `re.sub(r'C+', rep, s)` for a character class `C`:
replace every maximal run of characters satisfying `p` by `rep`.
The flag records whether we are inside a run whose replacement was
already emitted. -/
def subRunsAux (p : Char → Bool) (rep : Char) : Bool → List Char → List Char
  | _, [] => []
  | inRun, c :: rest =>
    if p c then
      if inRun then subRunsAux p rep true rest
      else rep :: subRunsAux p rep true rest
    else c :: subRunsAux p rep false rest

/-- Replace every maximal run of characters satisfying `p` by `rep`. -/
def subRuns (p : Char → Bool) (rep : Char) (cs : List Char) : List Char :=
  subRunsAux p rep false cs

/-- Steps two and three of `safe_name`: replace runs of Windows-illegal
characters by `_` (`re.sub(r'[<>:"/\\|?*]+', "_", name)`), then collapse
whitespace runs to single spaces and strip
(`re.sub(r"\s+", " ", name).strip()`). -/
def cleanup (cs : List Char) : List Char :=
  stripList (subRuns pyIsSpace ' ' (subRuns illegalChar '_' cs))

/-- Embedding of `safe_name` (src/aax-mp3.py lines 124–128):
`name = name.strip() or fallback`, then replace runs of Windows-illegal
characters by `_`, collapse whitespace runs to single spaces and strip,
finally truncate to the first 180 characters (`name[:180]`). -/
def safe_name (name fallback : String) : String :=
  let n1 := if stripList name.data = [] then fallback.data else stripList name.data
  String.mk ((cleanup n1).take 180)

/-- Tests whether the string's final character is Python whitespace. -/
def endsInWs (s : String) : Bool :=
  match s.data.getLast? with
  | some c => pyIsSpace c
  | none => false

/-- Python `f"{i:03d}"`: decimal representation zero-padded on the left
to a minimum width of three. -/
def pad3 (i : Nat) : String :=
  let s := toString i
  if s.length < 3 then String.mk (List.replicate (3 - s.length) '0') ++ s else s

/-- The decimal digit character for `k % 10`. -/
def digitChar10 (k : Nat) : Char :=
  match k % 10 with
  | 0 => '0' | 1 => '1' | 2 => '2' | 3 => '3' | 4 => '4'
  | 5 => '5' | 6 => '6' | 7 => '7' | 8 => '8' | _ => '9'

/-- The six-digit zero-padded decimal rendering of `r % 10^6`: the
fraction part of Python's fixed-point `"%.6f"` formatting. -/
def pad6frac (r : Nat) : String :=
  String.mk [digitChar10 (r / 100000), digitChar10 (r / 10000),
             digitChar10 (r / 1000), digitChar10 (r / 100),
             digitChar10 (r / 10), digitChar10 r]

/-- Round `q * 10^6` to the nearest integer, ties to even: the rounding
performed by Python's `f"{x:.6f}"` formatting on the value `x`. -/
def rnd6 (q : ℚ) : ℤ :=
  let s := q * 1000000
  let fl := s.floor
  if s - fl < 1/2 then fl
  else if s - fl > 1/2 then fl + 1
  else if fl % 2 = 0 then fl else fl + 1

/-- Embedding of Python `f"{x:.6f}"` on the numeric value `x : ℚ`:
optional sign, integer part, a dot, and exactly six fraction digits. -/
def fmt6 (q : ℚ) : String :=
  let n := (rnd6 q).natAbs
  (if q < 0 then "-" else "") ++ toString (n / 1000000) ++ "." ++ pad6frac (n % 1000000)

/-- Embedding of `dur = max(0.0, end - start)` (src/aax-mp3.py line 145). -/
def chapterDur (st en : ℚ) : ℚ := max 0 (en - st)

/-- JSON values as decoded by Python's `json` module: numbers are modelled
exactly as rationals (JSON number literals are finite decimals, so every
one has an exact `ℚ` value); objects keep their key/value pairs in parse
order. -/
inductive Json where
  | null : Json
  | bool : Bool → Json
  | num : ℚ → Json
  | str : String → Json
  | arr : List Json → Json
  | obj : List (String × Json) → Json

/-- Errors raised by the embedded Python fragments: `json` decode errors,
`KeyError`, `TypeError` and `ValueError`.  The spec's `ProbeError` is the
union of these as raised during probing/parsing. -/
inductive PyError where
  | jsonDecodeError : String → PyError
  | keyError : String → PyError
  | typeError : String → PyError
  | valueError : String → PyError
deriving DecidableEq

/-- JSON whitespace (the `json` module skips only these four). -/
def jsonWs (c : Char) : Bool :=
  c = ' ' || c = '\t' || c = '\n' || c = '\r'

def skipJWs (cs : List Char) : List Char := cs.dropWhile jsonWs

def isDigitChar (c : Char) : Bool := 48 ≤ c.toNat && c.toNat ≤ 57

def digitVal (c : Char) : Nat := c.toNat - 48

def digitsToNat (ds : List Char) : Nat :=
  ds.foldl (fun acc c => acc * 10 + digitVal c) 0

/-- Value of one hex digit of a `\uXXXX` escape (code-point arithmetic:
48–57 are `0`–`9`, 97–102 are `a`–`f`, 65–70 are `A`–`F`). -/
def hexDigitVal (c : Char) : Option Nat :=
  let n := c.toNat
  if 48 ≤ n ∧ n ≤ 57 then some (n - 48)
  else if 97 ≤ n ∧ n ≤ 102 then some (n - 87)
  else if 65 ≤ n ∧ n ≤ 70 then some (n - 55)
  else none

/-- Body of a JSON string literal after the opening quote, per the `json`
module's strict scanner: ends at `"`, rejects unescaped control
characters, handles the standard escapes and `\uXXXX` (surrogate pairs
are not combined here; no modelled input contains them). -/
def parseJString : Nat → List Char → Except String (List Char × List Char)
  | 0, _ => .error "Invalid control character"
  | _ + 1, [] => .error "Unterminated string"
  | fuel + 1, c :: rest =>
    if c = '"' then .ok ([], rest)
    else if c = '\\' then
      match rest with
      | [] => .error "Unterminated string"
      | e :: rest2 =>
        let esc : Option Char :=
          if e = '"' then some '"' else if e = '\\' then some '\\'
          else if e = '/' then some '/' else if e = 'b' then some '\x08'
          else if e = 'f' then some '\x0c' else if e = 'n' then some '\n'
          else if e = 'r' then some '\r' else if e = 't' then some '\t'
          else none
        match esc with
        | some ch =>
          match parseJString fuel rest2 with
          | .ok (s, r) => .ok (ch :: s, r)
          | .error m => .error m
        | none =>
          if e = 'u' then
            match rest2 with
            | h1 :: h2 :: h3 :: h4 :: rest3 =>
              match hexDigitVal h1, hexDigitVal h2, hexDigitVal h3, hexDigitVal h4 with
              | some a, some b, some c3, some d =>
                let code := ((a * 16 + b) * 16 + c3) * 16 + d
                match parseJString fuel rest3 with
                | .ok (s, r) => .ok (Char.ofNat code :: s, r)
                | .error m => .error m
              | _, _, _, _ => .error "Invalid \\uXXXX escape"
            | _ => .error "Invalid \\uXXXX escape"
          else .error "Invalid \\escape"
    else if c.toNat < 0x20 then .error "Invalid control character"
    else
      match parseJString fuel rest with
      | .ok (s, r) => .ok (c :: s, r)
      | .error m => .error m

/-- Maximal run of decimal digits. -/
def spanDigits (cs : List Char) : List Char × List Char :=
  (cs.takeWhile isDigitChar, cs.dropWhile isDigitChar)

/-- JSON number per the `json` module's regex
`(-?(?:0|[1-9]\d*))(\.\d+)?([eE][-+]?\d+)?`: returns the exact rational
value and the remaining input, or fails. -/
def parseJNumber (cs : List Char) : Except String (ℚ × List Char) :=
  let neg : Bool := cs.head? = some '-'
  let cs1 := if neg then cs.tail else cs
  match cs1 with
  | [] => .error "Expecting value"
  | d :: _ =>
    if ¬ isDigitChar d then .error "Expecting value"
    else
      let (ip, cs2) :=
        if d = '0' then ([d], cs1.tail)
        else spanDigits cs1
      let (fracDigits, cs3) := match cs2 with
        | '.' :: r =>
          let (fd, r') := spanDigits r
          (some fd, r')
        | _ => (none, cs2)
      match fracDigits with
      | some [] => .error "Expecting digits after decimal point"
      | _ =>
        let (expVal, cs4) := match cs3 with
          | e :: r =>
            if e = 'e' ∨ e = 'E' then
              let (esign, r1) := match r with
                | '-' :: r2 => ((-1 : ℤ), r2)
                | '+' :: r2 => ((1 : ℤ), r2)
                | _ => ((1 : ℤ), r)
              let (ed, r2) := spanDigits r1
              if ed = [] then (none, cs3)
              else (some (esign * (digitsToNat ed : ℤ)), r2)
            else (some 0, cs3)
          | [] => (some 0, cs3)
        match expVal with
        | none => .error "Expecting digits in exponent"
        | some ex =>
          let fd := fracDigits.getD []
          let mantissa : ℚ :=
            (digitsToNat ip : ℚ) + (digitsToNat fd : ℚ) / ((10 : ℚ) ^ fd.length)
          let value := (if neg then -mantissa else mantissa) * (10 : ℚ) ^ ex
          .ok (value, cs4)

mutual

/-- JSON value scanner (the input starts at a value token). -/
def parseJValue : Nat → List Char → Except String (Json × List Char)
  | 0, _ => .error "Expecting value"
  | fuel + 1, cs =>
    match cs with
    | [] => .error "Expecting value"
    | c :: rest =>
      if c = '{' then parseJObject fuel (skipJWs rest) true
      else if c = '[' then parseJArray fuel (skipJWs rest) true
      else if c = '"' then
        match parseJString (fuel + 1) rest with
        | .ok (s, r) => .ok (Json.str (String.mk s), r)
        | .error m => .error m
      else if c = 't' then
        match rest with
        | 'r' :: 'u' :: 'e' :: r => .ok (Json.bool true, r)
        | _ => .error "Expecting value"
      else if c = 'f' then
        match rest with
        | 'a' :: 'l' :: 's' :: 'e' :: r => .ok (Json.bool false, r)
        | _ => .error "Expecting value"
      else if c = 'n' then
        match rest with
        | 'u' :: 'l' :: 'l' :: r => .ok (Json.null, r)
        | _ => .error "Expecting value"
      else
        match parseJNumber cs with
        | .ok (q, r) => .ok (Json.num q, r)
        | .error m => .error m

/-- Items of a JSON array; `first` marks that no item has been read yet
(so `]` ends an empty array). -/
def parseJArray : Nat → List Char → Bool → Except String (Json × List Char)
  | 0, _, _ => .error "Expecting value"
  | fuel + 1, cs, first =>
    match cs with
    | ']' :: r => if first then .ok (Json.arr [], r) else .error "Expecting value"
    | _ =>
      match parseJValue fuel cs with
      | .error m => .error m
      | .ok (v, r1) =>
        match skipJWs r1 with
        | ',' :: r2 =>
          match parseJArray fuel (skipJWs r2) false with
          | .ok (Json.arr vs, r3) => .ok (Json.arr (v :: vs), r3)
          | .ok _ => .error "Expecting value"
          | .error m => .error m
        | ']' :: r2 => .ok (Json.arr [v], r2)
        | _ => .error "Expecting delimiter"

/-- Members of a JSON object; `first` marks that no member has been read
yet (so `}` ends an empty object). -/
def parseJObject : Nat → List Char → Bool → Except String (Json × List Char)
  | 0, _, _ => .error "Expecting value"
  | fuel + 1, cs, first =>
    match cs with
    | '\x7d' :: r => if first then .ok (Json.obj [], r) else .error "Expecting property name"
    | '"' :: r =>
      match parseJString (fuel + 1) r with
      | .error m => .error m
      | .ok (k, r1) =>
        match skipJWs r1 with
        | ':' :: r2 =>
          match parseJValue fuel (skipJWs r2) with
          | .error m => .error m
          | .ok (v, r3) =>
            match skipJWs r3 with
            | ',' :: r4 =>
              match parseJObject fuel (skipJWs r4) false with
              | .ok (Json.obj ms, r5) => .ok (Json.obj ((String.mk k, v) :: ms), r5)
              | .ok _ => .error "Expecting property name"
              | .error m => .error m
            | '\x7d' :: r4 => .ok (Json.obj [(String.mk k, v)], r4)
            | _ => .error "Expecting delimiter"
        | _ => .error "Expecting colon"
    | _ => .error "Expecting property name"

end

/-- Embedding of `json.JSONDecoder().decode(s)`: skip leading whitespace,
parse one value, require only whitespace to follow. -/
def jsonDecode (s : String) : Except PyError Json :=
  let cs := skipJWs s.data
  match parseJValue (cs.length + 1) cs with
  | .error m => .error (.jsonDecodeError m)
  | .ok (v, rest) =>
    if skipJWs rest = [] then .ok v
    else .error (.jsonDecodeError "Extra data")

/-- Python dict lookup on a decoded JSON object: with duplicate keys the
last occurrence wins (`json` builds the dict by successive assignment). -/
def dictGet (kvs : List (String × Json)) (k : String) : Option Json :=
  (kvs.reverse.find? (fun kv => kv.1 = k)).map (fun kv => kv.2)

/-- Python `v[k]` for a string key `k`: dict lookup (`KeyError` when
absent), `TypeError` on every non-dict value. -/
def pySubscript (v : Json) (k : String) : Except PyError Json :=
  match v with
  | Json.obj kvs =>
    match dictGet kvs k with
    | some w => .ok w
    | none => .error (.keyError k)
  | Json.str _ => .error (.typeError "string indices must be integers")
  | Json.arr _ => .error (.typeError "list indices must be integers")
  | _ => .error (.typeError "object is not subscriptable")

/-- Python iteration over a decoded JSON value (`enumerate(v)`): lists
yield their elements, strings their characters, dicts their keys; other
values raise `TypeError`. -/
def pyIter (v : Json) : Except PyError (List Json) :=
  match v with
  | Json.arr xs => .ok xs
  | Json.str s => .ok (s.data.map (fun c => Json.str (String.mk [c])))
  | Json.obj kvs => .ok (kvs.map (fun kv => Json.str kv.1))
  | _ => .error (.typeError "object is not iterable")

/-- Python `float(s)` on a string: strip whitespace, optional sign, a
decimal mantissa with at least one digit (`"1"`, `"1."`, `".5"`) and an
optional exponent with at least one digit; anything else raises
`ValueError`.  (`inf`/`nan` literals and digit-group underscores are
outside the modelled range.) -/
def pyFloatOfString (s : String) : Except PyError ℚ :=
  let cs := stripList s.data
  let (neg, cs1) :=
    if cs.head? = some '-' then (true, cs.tail)
    else if cs.head? = some '+' then (false, cs.tail)
    else (false, cs)
  let (ip, cs2) := spanDigits cs1
  let (fracDigits, cs3) := match cs2 with
    | '.' :: r =>
      let (fd, r') := spanDigits r
      (some fd, r')
    | _ => (none, cs2)
  if ip = [] ∧ fracDigits.getD [] = [] then
    .error (.valueError "could not convert string to float")
  else
    let (expVal, cs4) := match cs3 with
      | e :: r =>
        if e = 'e' ∨ e = 'E' then
          let (esign, r1) := match r with
            | '-' :: r2 => ((-1 : ℤ), r2)
            | '+' :: r2 => ((1 : ℤ), r2)
            | _ => ((1 : ℤ), r)
          let (ed, r2) := spanDigits r1
          if ed = [] then (none, cs3)
          else (some (esign * (digitsToNat ed : ℤ)), r2)
        else (none, cs3)
      | [] => (some 0, cs3)
    match expVal with
    | none => .error (.valueError "could not convert string to float")
    | some ex =>
      if cs4 ≠ [] then .error (.valueError "could not convert string to float")
      else
        let fd := fracDigits.getD []
        let mantissa : ℚ :=
          (digitsToNat ip : ℚ) + (digitsToNat fd : ℚ) / ((10 : ℚ) ^ fd.length)
        .ok ((if neg then -mantissa else mantissa) * (10 : ℚ) ^ ex)

/-- Python `float(v)` on a decoded JSON value: numbers pass through,
booleans become 0/1, strings are parsed, everything else raises
`TypeError`. -/
def pyFloat (v : Json) : Except PyError ℚ :=
  match v with
  | Json.num q => .ok q
  | Json.bool b => .ok (if b then 1 else 0)
  | Json.str s => pyFloatOfString s
  | _ => .error (.typeError "float() argument must be a string or a number")

/-- An external-tool invocation: program path and argument list, exactly
as handed to `run_program` (src/aax-mp3.py lines 36–57). -/
structure Invoc where
  program : String
  args : List String
deriving DecidableEq

/-- A completed probe run as seen by the callers of `run_program`: the
child's exit code and the captured stdout chunks. -/
structure ProbeRun where
  exitCode : Int
  outputs : List String

/-- The `Options` dataclass (src/aax-mp3.py lines 16–22). -/
structure Options where
  input : String
  out_path : String
  base_out_name : String
  title : String
  tool : String

/-- The `Ffmpeg` class state (src/aax-mp3.py lines 24–34). -/
structure Ffmpeg where
  ff_path : String
  activate_bytes : String

/-- Embedding of `Ffmpeg.__init__`: a `None` tool path defaults to the hard-coded
Windows directory, a `None` credential defaults to `"11bb9604"`. -/
def Ffmpeg.init (ff_path : Option String) (activate_bytes : Option String) : Ffmpeg :=
  { ff_path := ff_path.getD "c:\\Program Files\\fmpeg\\bin"
    activate_bytes := activate_bytes.getD "11bb9604" }

/-- The `ffprobe` invocation built by `Ffmpeg.get_metainfo`
(src/aax-mp3.py lines 59–64). -/
def get_metainfo_invoc (f : Ffmpeg) (inp : String) : Invoc :=
  { program := f.ff_path ++ "/" ++ "ffprobe"
    args := ["-v", "error", "-show_entries", "format_tags", "-of", "json", inp] }

/-- The result of `Ffmpeg.get_metainfo` (src/aax-mp3.py lines 65–69):
the captured stdout chunks are joined and JSON-decoded; the exit code is
discarded (the variable holding it is immediately overwritten). -/
def get_metainfo_result (run : ProbeRun) : Except PyError Json :=
  jsonDecode (String.join run.outputs)

/-- The `ffprobe` invocation built by `Ffmpeg.get_chapters`
(src/aax-mp3.py lines 71–76). -/
def get_chapters_invoc (f : Ffmpeg) (inp : String) : Invoc :=
  { program := f.ff_path ++ "/" ++ "ffprobe"
    args := ["-v", "error", "-print_format", "json", "-show_chapters", inp] }

/-- The result of `Ffmpeg.get_chapters` (src/aax-mp3.py lines 77–81):
join and JSON-decode the captured stdout (exit code discarded exactly as
in `get_metainfo`), then take `res["chapters"]`. -/
def get_chapters_result (run : ProbeRun) : Except PyError Json :=
  match jsonDecode (String.join run.outputs) with
  | .error e => .error e
  | .ok v => pySubscript v "chapters"

/-- The `ffmpeg` invocation built by `Ffmpeg.convert_aax_ap3`
(src/aax-mp3.py lines 83–93). -/
def convert_aax_ap3_invoc (f : Ffmpeg) (inp out : String) : Invoc :=
  { program := f.ff_path ++ "/" ++ "ffmpeg"
    args := ["-hide_banner", "-y", "-activation_bytes", f.activate_bytes,
             "-i", inp, "-codec:a", "libmp3lame", "-vn", out] }

/-- The `ffmpeg` invocation built by `Ffmpeg.split_ap3`
(src/aax-mp3.py lines 95–116): start and duration are formatted with
`f"{x:.6f}"`, the title is embedded as `title="<title>"`. -/
def split_ap3_invoc (f : Ffmpeg) (inp out : String) (start dur : ℚ) (title : String) : Invoc :=
  { program := f.ff_path ++ "/" ++ "ffmpeg"
    args := ["-hide_banner", "-loglevel", "error", "-y", "-i", inp,
             "-ss", fmt6 start, "-t", fmt6 dur, "-map", "0:a:0", "-c", "copy",
             "-metadata", "title=\"" ++ title ++ "\"", out] }

/-- The fixed intermediate file name (src/aax-mp3.py line 134). -/
def temp_name : String := "test.mp3"

/-- Extraction of one chapter's times inside the `convert` loop
(src/aax-mp3.py lines 143–144): `float(ch["start_time"])` and
`float(ch["end_time"])`. -/
def chapterTimes (ch : Json) : Except PyError (ℚ × ℚ) := do
  let sv ← pySubscript ch "start_time"
  let st ← pyFloat sv
  let ev ← pySubscript ch "end_time"
  let en ← pyFloat ev
  pure (st, en)

/-- The per-chapter file title (src/aax-mp3.py line 146):
`f"{i:03d} - {safe_name(title, f'{i:03d} {title}')}"`. -/
def fileTitle (title : String) (i : Nat) : String :=
  pad3 i ++ " - " ++ safe_name title (pad3 i ++ " " ++ title)

/-- The split loop of `convert` (src/aax-mp3.py lines 142–149), with the
1-based counter `i` of `enumerate(chapters, start=1)` passed explicitly.
Returns the split invocations issued in order and the first error, if
any; an error raised while reading a chapter's times stops the loop
before that chapter's split. -/
def splitChapters (f : Ffmpeg) (out title : String) : List Json → Nat → List Invoc × Option PyError
  | [], _ => ([], none)
  | ch :: rest, i =>
    match chapterTimes ch with
    | .error e => ([], some e)
    | .ok (start, en) =>
      let dur := chapterDur start en
      let file_title := fileTitle title i
      let filename := file_title ++ ".mp3"
      let out_path := out ++ "/" ++ filename
      let inv := split_ap3_invoc f temp_name out_path start dur file_title
      (inv :: (splitChapters f out title rest (i + 1)).1,
       (splitChapters f out title rest (i + 1)).2)

/-- The `Ffmpeg` instance constructed by `convert` (src/aax-mp3.py line
135): `Ffmpeg(activate_bytes="11bb9604", ff_path=options.tool)` — the
credential is passed as the literal `"11bb9604"`, not taken from the
options. -/
def convertFfmpeg (options : Options) : Ffmpeg :=
  Ffmpeg.init (some options.tool) (some "11bb9604")

/-- Embedding of `convert` (src/aax-mp3.py lines 130–149) as a function
from the options and the two probe runs (metadata probe on the input,
chapter probe on the intermediate file) to the ordered list of
external-tool invocations issued and the error aborting the pipeline, if
any.  A metadata-probe decode failure aborts before the transcode; a
chapter-probe failure aborts after the transcode and before any split. -/
def convert (options : Options) (metaRun chapRun : ProbeRun) : List Invoc × Option PyError :=
  let out := options.out_path
  let ffmpeg := convertFfmpeg options
  let metaInv := get_metainfo_invoc ffmpeg options.input
  match get_metainfo_result metaRun with
  | .error e => ([metaInv], some e)
  | .ok _meta =>
    let transInv := convert_aax_ap3_invoc ffmpeg options.input temp_name
    let chapInv := get_chapters_invoc ffmpeg temp_name
    match get_chapters_result chapRun with
    | .error e => ([metaInv, transInv, chapInv], some e)
    | .ok chaptersVal =>
      match pyIter chaptersVal with
      | .error e => ([metaInv, transInv, chapInv], some e)
      | .ok chapters =>
        ([metaInv, transInv, chapInv] ++ (splitChapters ffmpeg out options.title chapters 1).1,
         (splitChapters ffmpeg out options.title chapters 1).2)


/-! ### Helper lemmas about run replacement, stripping and `cleanup` -/

theorem mem_subRunsAux {p : Char → Bool} {rep : Char} {b : Bool} {cs : List Char} {c : Char}
    (h : c ∈ subRunsAux p rep b cs) : c = rep ∨ (p c = false ∧ c ∈ cs) := by
  induction cs generalizing b with
  | nil => simp [subRunsAux] at h
  | cons d rest ih =>
    cases hpd : p d with
    | true =>
      cases b with
      | true =>
        simp only [subRunsAux, hpd, if_true, Bool.true_eq_false, Bool.false_eq_true, if_false, eq_self_iff_true] at h
        rcases ih h with h1 | ⟨h2, h3⟩
        · exact Or.inl h1
        · exact Or.inr ⟨h2, List.mem_cons_of_mem _ h3⟩
      | false =>
        simp only [subRunsAux, hpd, if_true, Bool.true_eq_false, Bool.false_eq_true, if_false, eq_self_iff_true] at h
        rcases List.mem_cons.mp h with h1 | h1
        · exact Or.inl h1
        · rcases ih h1 with h2 | ⟨h2, h3⟩
          · exact Or.inl h2
          · exact Or.inr ⟨h2, List.mem_cons_of_mem _ h3⟩
    | false =>
      simp only [subRunsAux, hpd, Bool.false_eq_true, if_false] at h
      rcases List.mem_cons.mp h with h1 | h1
      · subst h1; exact Or.inr ⟨hpd, List.mem_cons_self _ _⟩
      · rcases ih h1 with h2 | ⟨h2, h3⟩
        · exact Or.inl h2
        · exact Or.inr ⟨h2, List.mem_cons_of_mem _ h3⟩

theorem subRunsAux_eq_self {p : Char → Bool} {rep : Char} {cs : List Char}
    (h : ∀ c ∈ cs, p c = false) (b : Bool) : subRunsAux p rep b cs = cs := by
  induction cs generalizing b with
  | nil => rfl
  | cons d rest ih =>
    have hd : p d = false := h d (List.mem_cons_self _ _)
    simp only [subRunsAux, hd, Bool.false_eq_true, if_false]
    rw [ih (fun c hc => h c (List.mem_cons_of_mem _ hc))]

theorem mem_subRunsAux_of_mem {p : Char → Bool} {rep : Char} {cs : List Char} {c : Char}
    (hc : c ∈ cs) (hp : p c = false) (b : Bool) : c ∈ subRunsAux p rep b cs := by
  induction cs generalizing b with
  | nil => cases hc
  | cons d rest ih =>
    rcases List.mem_cons.mp hc with rfl | hmem
    · simp [subRunsAux, hp]
    · cases hpd : p d with
      | true =>
        cases b with
        | true => simpa only [subRunsAux, hpd, if_true] using ih hmem true
        | false =>
          simp only [subRunsAux, hpd, if_true, Bool.true_eq_false, Bool.false_eq_true, if_false, eq_self_iff_true]
          exact List.mem_cons_of_mem _ (ih hmem true)
      | false =>
        simp only [subRunsAux, hpd, Bool.false_eq_true, if_false]
        exact List.mem_cons_of_mem _ (ih hmem false)

theorem head_subRunsAux_true {p : Char → Bool} {rep : Char} {cs : List Char} {c : Char}
    (h : (subRunsAux p rep true cs).head? = some c) : p c = false := by
  induction cs with
  | nil => simp [subRunsAux] at h
  | cons d rest ih =>
    cases hpd : p d with
    | true =>
      simp only [subRunsAux, hpd, if_true, Bool.true_eq_false, Bool.false_eq_true, if_false, eq_self_iff_true] at h
      exact ih h
    | false =>
      simp only [subRunsAux, hpd, Bool.false_eq_true, if_false, List.head?_cons, Option.some.injEq] at h
      subst h; exact hpd

theorem subRunsAux_true_eq_false {p : Char → Bool} {rep : Char} {cs : List Char}
    (h : ∀ c ∈ cs.head?, p c = false) :
    subRunsAux p rep true cs = subRunsAux p rep false cs := by
  cases cs with
  | nil => rfl
  | cons d rest =>
    have hd : p d = false := h d (by simp)
    simp [subRunsAux, hd]

/-- The separation invariant of collapsed whitespace: no two adjacent
characters are both whitespace. -/
def sepSpace (a b : Char) : Prop := pyIsSpace a = false ∨ pyIsSpace b = false

theorem chain'_subRunsAux_space (b : Bool) (cs : List Char) :
    List.Chain' sepSpace (subRunsAux pyIsSpace ' ' b cs) := by
  induction cs generalizing b with
  | nil => simp [subRunsAux]
  | cons d rest ih =>
    cases hpd : pyIsSpace d with
    | false =>
      simp only [subRunsAux, hpd, Bool.false_eq_true, if_false]
      rw [List.chain'_cons']
      exact ⟨fun y _ => Or.inl hpd, ih false⟩
    | true =>
      cases b with
      | true => simpa only [subRunsAux, hpd, if_true] using ih true
      | false =>
        simp only [subRunsAux, hpd, if_true, Bool.true_eq_false, Bool.false_eq_true, if_false, eq_self_iff_true]
        rw [List.chain'_cons']
        refine ⟨fun y hy => Or.inr ?_, ih true⟩
        exact head_subRunsAux_true (Option.mem_def.mp hy)

theorem subRunsAux_space_eq_self {cs : List Char}
    (h1 : ∀ c ∈ cs, pyIsSpace c = true → c = ' ')
    (h2 : List.Chain' sepSpace cs) :
    subRunsAux pyIsSpace ' ' false cs = cs := by
  induction cs with
  | nil => rfl
  | cons d rest ih =>
    rw [List.chain'_cons'] at h2
    cases hpd : pyIsSpace d with
    | false =>
      simp only [subRunsAux, hpd, Bool.false_eq_true, if_false]
      rw [ih (fun c hc hs => h1 c (List.mem_cons_of_mem _ hc) hs) h2.2]
    | true =>
      have hd' : d = ' ' := h1 d (List.mem_cons_self _ _) hpd
      have hhead : ∀ c ∈ rest.head?, pyIsSpace c = false := by
        intro c hc
        rcases h2.1 c hc with h | h
        · rw [hpd] at h; cases h
        · exact h
      simp only [subRunsAux, hpd, if_true, Bool.true_eq_false, Bool.false_eq_true, if_false, eq_self_iff_true]
      rw [subRunsAux_true_eq_false hhead,
          ih (fun c hc hs => h1 c (List.mem_cons_of_mem _ hc) hs) h2.2, hd']

theorem head_dropWhile_false {p : Char → Bool} {cs : List Char} {c : Char}
    (h : (cs.dropWhile p).head? = some c) : p c = false := by
  induction cs with
  | nil => simp [List.dropWhile] at h
  | cons d rest ih =>
    cases hpd : p d with
    | true =>
      rw [List.dropWhile_cons, if_pos (by simp [hpd])] at h
      exact ih h
    | false =>
      rw [List.dropWhile_cons, if_neg (by simp [hpd])] at h
      simp only [List.head?_cons, Option.some.injEq] at h
      subst h; exact hpd

theorem dropWhile_eq_self_of_head {p : Char → Bool} {cs : List Char}
    (h : ∀ c ∈ cs.head?, p c = false) : cs.dropWhile p = cs := by
  cases cs with
  | nil => rfl
  | cons d rest =>
    have hd : p d = false := h d (by simp)
    rw [List.dropWhile_cons, if_neg (by simp [hd])]

theorem mem_of_mem_dropWhile {p : Char → Bool} {cs : List Char} {c : Char}
    (h : c ∈ cs.dropWhile p) : c ∈ cs :=
  (List.dropWhile_suffix p).sublist.mem h

theorem stripList_prefix_dropWhile (cs : List Char) :
    stripList cs <+: cs.dropWhile pyIsSpace := by
  unfold stripList dropTrailing
  rw [← List.reverse_suffix, List.reverse_reverse]
  exact List.dropWhile_suffix pyIsSpace

theorem stripList_within (cs : List Char) : stripList cs <:+: cs := by
  rcases stripList_prefix_dropWhile cs with ⟨t, ht⟩
  have hsuf : cs.dropWhile pyIsSpace <:+ cs := List.dropWhile_suffix pyIsSpace
  rcases hsuf with ⟨s, hs⟩
  exact ⟨s, t, by rw [List.append_assoc, ht, hs]⟩

theorem mem_of_mem_stripList {cs : List Char} {c : Char}
    (h : c ∈ stripList cs) : c ∈ cs :=
  (stripList_within cs).sublist.mem h

theorem head_stripList {cs : List Char} {c : Char}
    (h : (stripList cs).head? = some c) : pyIsSpace c = false := by
  rcases stripList_prefix_dropWhile cs with ⟨t, ht⟩
  have : (cs.dropWhile pyIsSpace).head? = some c := by
    rw [← ht, List.head?_append, h]
    rfl
  exact head_dropWhile_false this

theorem getLast_stripList {cs : List Char} {c : Char}
    (h : (stripList cs).getLast? = some c) : pyIsSpace c = false := by
  rw [List.getLast?_eq_head?_reverse] at h
  unfold stripList dropTrailing at h
  rw [List.reverse_reverse] at h
  exact head_dropWhile_false h

theorem stripList_eq_self {cs : List Char}
    (hh : ∀ c ∈ cs.head?, pyIsSpace c = false)
    (hl : ∀ c ∈ cs.getLast?, pyIsSpace c = false) : stripList cs = cs := by
  unfold stripList dropTrailing
  rw [dropWhile_eq_self_of_head hh]
  rw [dropWhile_eq_self_of_head (by intro c hc; apply hl; rwa [List.getLast?_eq_head?_reverse])]
  exact List.reverse_reverse cs

theorem mem_dropWhile_of_mem {p : Char → Bool} {cs : List Char} {c : Char}
    (hc : c ∈ cs) (hp : p c = false) : c ∈ cs.dropWhile p := by
  induction cs with
  | nil => cases hc
  | cons d rest ih =>
    cases hpd : p d with
    | true =>
      rw [List.dropWhile_cons, if_pos (by simp [hpd])]
      rcases List.mem_cons.mp hc with rfl | hm
      · rw [hpd] at hp; cases hp
      · exact ih hm
    | false =>
      rw [List.dropWhile_cons, if_neg (by simp [hpd])]
      exact hc

theorem mem_stripList_of_mem {cs : List Char} {c : Char}
    (hc : c ∈ cs) (hp : pyIsSpace c = false) : c ∈ stripList cs := by
  unfold stripList dropTrailing
  rw [List.mem_reverse]
  exact mem_dropWhile_of_mem (by rw [List.mem_reverse]; exact mem_dropWhile_of_mem hc hp) hp

theorem rep_mem_subRunsAux {p : Char → Bool} {rep : Char} {cs : List Char} {c : Char}
    (hc : c ∈ cs) (hp : p c = true) : rep ∈ subRunsAux p rep false cs := by
  induction cs with
  | nil => cases hc
  | cons d rest ih =>
    cases hpd : p d with
    | true => simp [subRunsAux, hpd]
    | false =>
      simp only [subRunsAux, hpd, Bool.false_eq_true, if_false]
      rcases List.mem_cons.mp hc with rfl | hm
      · rw [hpd] at hp; cases hp
      · exact List.mem_cons_of_mem _ (ih hm)

theorem mem_of_head?_eq {α : Type} {l : List α} {c : α} (h : l.head? = some c) : c ∈ l := by
  cases l with
  | nil => cases h
  | cons a r =>
    simp only [List.head?_cons, Option.some.injEq] at h
    subst h; exact List.mem_cons_self _ _

theorem head?_take_pos {α : Type} {l : List α} {n : Nat} (hn : 0 < n) :
    (l.take n).head? = l.head? := by
  cases l with
  | nil => simp
  | cons a r =>
    cases n with
    | zero => cases hn
    | succ m => simp [List.take]

theorem cleanup_no_illegal {cs : List Char} {c : Char} (hc : c ∈ cleanup cs) :
    illegalChar c = false := by
  have hc2 : c ∈ subRuns pyIsSpace ' ' (subRuns illegalChar '_' cs) := mem_of_mem_stripList hc
  rcases mem_subRunsAux hc2 with rfl | ⟨_, hc3⟩
  · decide
  · rcases mem_subRunsAux hc3 with rfl | ⟨hil, _⟩
    · decide
    · exact hil

theorem cleanup_space_eq {cs : List Char} {c : Char} (hc : c ∈ cleanup cs)
    (hs : pyIsSpace c = true) : c = ' ' := by
  have hc2 := mem_of_mem_stripList hc
  rcases mem_subRunsAux hc2 with rfl | ⟨hns, _⟩
  · rfl
  · rw [hns] at hs; cases hs

theorem cleanup_chain' (cs : List Char) : List.Chain' sepSpace (cleanup cs) :=
  List.Chain'.infix (chain'_subRunsAux_space false _) (stripList_within _)

theorem cleanup_head {cs : List Char} {c : Char}
    (h : (cleanup cs).head? = some c) : pyIsSpace c = false := head_stripList h

theorem cleanup_getLast {cs : List Char} {c : Char}
    (h : (cleanup cs).getLast? = some c) : pyIsSpace c = false := getLast_stripList h

theorem cleanup_ne_nil {cs : List Char} {c : Char} (hc : c ∈ cs) (hs : pyIsSpace c = false) :
    cleanup cs ≠ [] := by
  have h1 : ∃ d, d ∈ subRuns illegalChar '_' cs ∧ pyIsSpace d = false := by
    cases hil : illegalChar c with
    | false => exact ⟨c, mem_subRunsAux_of_mem hc hil false, hs⟩
    | true => exact ⟨'_', rep_mem_subRunsAux hc hil, by decide⟩
  rcases h1 with ⟨d, hd1, hd2⟩
  have h2 : d ∈ subRuns pyIsSpace ' ' (subRuns illegalChar '_' cs) :=
    mem_subRunsAux_of_mem hd1 hd2 false
  have h3 : d ∈ cleanup cs := mem_stripList_of_mem h2 hd2
  intro hnil
  rw [hnil] at h3
  cases h3

theorem cleanup_eq_self {cs : List Char}
    (h1 : ∀ c ∈ cs, illegalChar c = false)
    (h2 : ∀ c ∈ cs, pyIsSpace c = true → c = ' ')
    (h3 : List.Chain' sepSpace cs)
    (hh : ∀ c ∈ cs.head?, pyIsSpace c = false)
    (hl : ∀ c ∈ cs.getLast?, pyIsSpace c = false) :
    cleanup cs = cs := by
  unfold cleanup subRuns
  rw [subRunsAux_eq_self h1 false, subRunsAux_space_eq_self h2 h3, stripList_eq_self hh hl]

/-! ### The sanitizer claims -/

/-- C2 (amended): `safe_name` is idempotent on every input whose
sanitized result does not end in whitespace; truncation to 180
characters is the only step that can leave a trailing space (see the
counterexample), and re-sanitizing such a result strips that space. -/
theorem safe_name_idem (x f : String)
    (h : endsInWs (safe_name x f) = false) :
    safe_name (safe_name x f) f = safe_name x f := by
  have hsf : safe_name x f =
      String.mk ((cleanup (if stripList x.data = [] then f.data
                           else stripList x.data)).take 180) := rfl
  set n1 := if stripList x.data = [] then f.data else stripList x.data with hn1
  set y := (cleanup n1).take 180 with hy
  by_cases hynil : y = []
  · -- the sanitized result is empty: `x` strips to empty and the
    -- fallback cleans to empty, so re-sanitizing yields empty again
    have hcl : cleanup n1 = [] := by
      have h' : (cleanup n1).take 180 = [] := by rw [← hy]; exact hynil
      rcases List.take_eq_nil_iff.mp h' with h1 | h1
      · exact absurd h1 (by norm_num)
      · exact h1
    have hxnil : stripList x.data = [] := by
      by_contra hne
      rcases hne' : (stripList x.data).head? with _ | c
      · cases hhh : stripList x.data with
        | nil => exact hne hhh
        | cons a r => rw [hhh] at hne'; cases hne'
      · have hcs : pyIsSpace c = false := head_stripList hne'
        have hcm : c ∈ n1 := by
          rw [hn1, if_neg hne]
          exact mem_of_head?_eq hne'
        exact cleanup_ne_nil hcm hcs hcl
    have hn1f : n1 = f.data := by rw [hn1, if_pos hxnil]
    rw [hsf, hynil]
    show String.mk ((cleanup f.data).take 180) = String.mk []
    rw [← hn1f, hcl]
    rfl
  · -- the sanitized result is nonempty: every sanitizing step fixes it
    have hyIll : ∀ c ∈ y, illegalChar c = false := fun c hc =>
      cleanup_no_illegal (List.mem_of_mem_take hc)
    have hySp : ∀ c ∈ y, pyIsSpace c = true → c = ' ' := fun c hc hs =>
      cleanup_space_eq (List.mem_of_mem_take hc) hs
    have hyCh : List.Chain' sepSpace y := (cleanup_chain' n1).take 180
    have hyHead : ∀ c ∈ y.head?, pyIsSpace c = false := by
      intro c hc
      rw [hy, head?_take_pos (by norm_num)] at hc
      exact cleanup_head (Option.mem_def.mp hc)
    have hyLast : ∀ c ∈ y.getLast?, pyIsSpace c = false := by
      intro c hc
      rw [Option.mem_def] at hc
      rw [hsf] at h
      have h' : (match y.getLast? with
                 | some d => pyIsSpace d
                 | none => false) = false := h
      rw [hc] at h'
      exact h'
    have hstrip : stripList y = y := stripList_eq_self hyHead hyLast
    have hclean : cleanup y = y := cleanup_eq_self hyIll hySp hyCh hyHead hyLast
    have hlen : y.length ≤ 180 := by
      rw [hy, List.length_take]
      exact min_le_left _ _
    rw [hsf]
    show String.mk ((cleanup (if stripList y = [] then f.data
                              else stripList y)).take 180) = String.mk y
    rw [hstrip, if_neg hynil, hclean, List.take_of_length_le hlen]

/-- Witness for C2 at a concrete input: the sanitized name has no
trailing whitespace, and idempotence follows from `safe_name_idem`. -/
theorem safe_name_idem_witness :
    endsInWs (safe_name "My/Book: Ch 1" "fb") = false ∧
    safe_name (safe_name "My/Book: Ch 1" "fb") "fb" = safe_name "My/Book: Ch 1" "fb" :=
  ⟨by decide, safe_name_idem "My/Book: Ch 1" "fb" (by decide)⟩

set_option maxRecDepth 10000 in
/-- C2 counterexample: the 181-character raw name of 179 `a`s, a space
and a final `b` is truncated to 180 characters ending in a space; a
second application of `safe_name` strips that space, so `safe_name` is
not idempotent for all inputs as originally claimed. -/
theorem safe_name_not_idempotent :
    safe_name (safe_name (String.mk (List.replicate 179 'a' ++ [' ', 'b'])) "f") "f" ≠
      safe_name (String.mk (List.replicate 179 'a' ++ [' ', 'b'])) "f" := by decide

/-- C3 (amended): every sanitized name contains no Windows-illegal
(path-separator or OS-reserved) characters, every whitespace character
in it is a plain space with no two adjacent (whitespace runs are
collapsed), it has no leading whitespace, and its length is at most 180
characters.  The original claim's "no trailing whitespace" does not
hold in general: truncation at 180 can leave exactly one trailing
space (see the counterexample). -/
theorem safe_name_sanitized (x f : String) :
    (∀ c ∈ (safe_name x f).data, illegalChar c = false) ∧
    (∀ c ∈ (safe_name x f).data, pyIsSpace c = true → c = ' ') ∧
    List.Chain' sepSpace (safe_name x f).data ∧
    (∀ c ∈ (safe_name x f).data.head?, pyIsSpace c = false) ∧
    (safe_name x f).length ≤ 180 := by
  have hsf : (safe_name x f).data =
      (cleanup (if stripList x.data = [] then f.data
                else stripList x.data)).take 180 := rfl
  set n1 := if stripList x.data = [] then f.data else stripList x.data with hn1
  refine ⟨?_, ?_, ?_, ?_, ?_⟩
  · intro c hc
    rw [hsf] at hc
    exact cleanup_no_illegal (List.mem_of_mem_take hc)
  · intro c hc hs
    rw [hsf] at hc
    exact cleanup_space_eq (List.mem_of_mem_take hc) hs
  · rw [hsf]
    exact (cleanup_chain' n1).take 180
  · intro c hc
    rw [hsf, head?_take_pos (by norm_num)] at hc
    exact cleanup_head (Option.mem_def.mp hc)
  · have : (safe_name x f).length = ((cleanup n1).take 180).length := by
      rw [show safe_name x f = String.mk ((cleanup n1).take 180) from rfl, String.length_mk]
    rw [this, List.length_take]
    exact min_le_left _ _

set_option maxRecDepth 10000 in
/-- C3 counterexample: the 181-character input of 179 `a`s, a space and
a `b` sanitizes to a 180-character string ending in a space,
contradicting the claim's "no trailing whitespace". -/
theorem safe_name_trailing_ws :
    endsInWs (safe_name (String.mk (List.replicate 179 'a' ++ [' ', 'b'])) "f") = true := by
  decide

/-- C4: the sanitizer agrees with the spec's worked examples: reserved
characters are replaced by underscores with runs merged, whitespace is
collapsed and trimmed, and an all-whitespace raw name falls back to the
fallback string. -/
theorem safe_name_spec_examples :
    safe_name "My/Book: Ch 1" "fallback" = "My_Book_ Ch 1" ∧
    safe_name "   " "fallback" = "fallback" := by decide

/-! ### The numeric and formatting claims -/

/-- C5: for every chapter with numeric start and end times, the duration
computed by the pipeline (`chapterDur`, used verbatim in
`splitChapters`) equals `max 0 (end - start)`: it is never negative,
equals `end - start` whenever `end ≥ start`, and clamps to `0` whenever
`end < start` instead of going negative. -/
theorem chapterDur_clamps (st en : ℚ) :
    chapterDur st en = max 0 (en - st) ∧ 0 ≤ chapterDur st en ∧
    (st ≤ en → chapterDur st en = en - st) ∧
    (en < st → chapterDur st en = 0) := by
  refine ⟨rfl, le_max_left _ _, fun h => ?_, fun h => ?_⟩
  · exact max_eq_right (by linarith)
  · exact max_eq_left (by linarith)

/-- Witness for C5 at concrete times: a malformed chapter with
`end < start` gets duration `0`, a well-formed one gets `end − start`. -/
theorem chapterDur_clamps_witness :
    chapterDur 2 1 = 0 ∧ chapterDur 1 3 = 3 - 1 :=
  ⟨(chapterDur_clamps 2 1).2.2.2 (by norm_num),
   (chapterDur_clamps 1 3).2.2.1 (by norm_num)⟩

/-- C8: every split invocation's argument list enables overwrite (`-y`)
and quiet logging (`-loglevel error`), seeks with `-ss` to the
`fmt6`-formatted start, passes the `fmt6`-formatted duration with `-t`,
maps only the first audio stream (`-map 0:a:0`) with stream copy
(`-c copy`), and sets the metadata title to the supplied title wrapped
in quotes; and `fmt6` always renders fixed-point notation with exactly
six fraction digits after the dot. -/
theorem split_ap3_invoc_args (fm : Ffmpeg) (inp out : String) (st dur : ℚ) (title : String) :
    (split_ap3_invoc fm inp out st dur title).args =
      ["-hide_banner", "-loglevel", "error", "-y", "-i", inp,
       "-ss", fmt6 st, "-t", fmt6 dur, "-map", "0:a:0", "-c", "copy",
       "-metadata", "title=\"" ++ title ++ "\"", out] ∧
    (∀ q : ℚ, ∃ p r, fmt6 q = p ++ "." ++ pad6frac r ∧ r < 1000000 ∧
      (pad6frac r).length = 6) := by
  refine ⟨rfl, fun q => ?_⟩
  exact ⟨(if q < 0 then "-" else "") ++ toString ((rnd6 q).natAbs / 1000000),
         (rnd6 q).natAbs % 1000000, rfl, Nat.mod_lt _ (by norm_num), rfl⟩

/-! ### The probe and pipeline claims -/

/-- C1 (amended): the result of each probe operation depends only on the
captured stdout — the exit code is ignored (the source overwrites the
variable holding it) — and the operation fails exactly when that output
is not parseable structured data (malformed or empty), or, for the
chapter probe, when the decoded object lacks the `chapters` field.  In
particular a run with non-zero exit code but parseable output succeeds,
contrary to the original claim. -/
theorem probe_ignores_exit_code (e1 e2 : Int) (outs : List String) :
    get_metainfo_result ⟨e1, outs⟩ = get_metainfo_result ⟨e2, outs⟩ ∧
    get_chapters_result ⟨e1, outs⟩ = get_chapters_result ⟨e2, outs⟩ ∧
    (∀ m, jsonDecode (String.join outs) = .error m →
      get_metainfo_result ⟨e1, outs⟩ = .error m ∧
      get_chapters_result ⟨e1, outs⟩ = .error m) ∧
    (∀ kvs, jsonDecode (String.join outs) = .ok (Json.obj kvs) →
      dictGet kvs "chapters" = none →
      get_chapters_result ⟨e1, outs⟩ = .error (.keyError "chapters")) := by
  refine ⟨rfl, rfl, fun m hm => ⟨hm, ?_⟩, fun kvs hk hn => ?_⟩
  · unfold get_chapters_result
    rw [hm]
  · unfold get_chapters_result
    rw [hk]
    simp [pySubscript, hn]

/-- Witness for C1's amended failure condition: empty stdout fails to
decode, so both probes fail regardless of the exit code. -/
theorem probe_ignores_exit_code_witness :
    get_metainfo_result ⟨1, [""]⟩ = .error (.jsonDecodeError "Expecting value") ∧
    get_chapters_result ⟨1, [""]⟩ = .error (.jsonDecodeError "Expecting value") :=
  (probe_ignores_exit_code 1 0 [""]).2.2.1 (.jsonDecodeError "Expecting value") rfl

/-- C1 counterexample: a chapter-probe run with exit code 1 but
parseable stdout succeeds, where the claim demands failure for every
non-zero exit code. -/
theorem chapters_probe_ok_nonzero_exit :
    get_chapters_result ⟨1, ["\x7b\"chapters\": []\x7d"]⟩ = .ok (Json.arr []) := rfl

/-- C9 counterexample (negation of the claim): no value of the
conversion options changes the activation credential used by the
pipeline's `Ffmpeg` instance — it is always the literal `"11bb9604"`. -/
theorem no_option_changes_credential :
    ¬ ∃ o : Options, (convertFfmpeg o).activate_bytes ≠ "11bb9604" := by
  rintro ⟨o, h⟩
  exact h rfl

/-- C9 (amended): the `Ffmpeg` constructor's credential parameter is
configurable and defaults to `"11bb9604"` when absent, but the pipeline
hard-codes the credential: `convert` constructs its `Ffmpeg` with the
literal `"11bb9604"`, so for every options value the transcode
invocation carries `-activation_bytes 11bb9604` and nothing in
`Options` can change it. -/
theorem credential_hardcoded (o : Options) (inp outp : String) (s : String) :
    (convertFfmpeg o).activate_bytes = "11bb9604" ∧
    (Ffmpeg.init (some s) none).activate_bytes = "11bb9604" ∧
    (Ffmpeg.init none (some s)).activate_bytes = s ∧
    (convert_aax_ap3_invoc (convertFfmpeg o) inp outp).args =
      ["-hide_banner", "-y", "-activation_bytes", "11bb9604",
       "-i", inp, "-codec:a", "libmp3lame", "-vn", outp] :=
  ⟨rfl, rfl, rfl, rfl⟩

/-- C10: the pipeline's behaviour is independent of the base output
name: two option values that agree on input path, output directory,
display title and tool directory — differing only in `base_out_name` —
produce identical invocation traces and errors. -/
theorem convert_ignores_base_out_name (o1 o2 : Options) (metaRun chapRun : ProbeRun)
    (hi : o1.input = o2.input) (ho : o1.out_path = o2.out_path)
    (ht : o1.title = o2.title) (hl : o1.tool = o2.tool) :
    convert o1 metaRun chapRun = convert o2 metaRun chapRun := by
  obtain ⟨i1, p1, b1, t1, l1⟩ := o1
  obtain ⟨i2, p2, b2, t2, l2⟩ := o2
  simp only at hi ho ht hl
  subst hi; subst ho; subst ht; subst hl
  rfl

/-- Witness for C10: two concrete option records differing only in the
base output name yield the same trace. -/
theorem convert_ignores_base_out_name_witness :
    convert ⟨"in.aax", "outdir", "nameA", "T", "/usr/bin"⟩ ⟨0, ["\x7b\x7d"]⟩ ⟨1, []⟩ =
      convert ⟨"in.aax", "outdir", "nameB", "T", "/usr/bin"⟩ ⟨0, ["\x7b\x7d"]⟩ ⟨1, []⟩ :=
  convert_ignores_base_out_name _ _ _ _ rfl rfl rfl rfl

/-- C7: when the chapter probe fails (while the metadata probe
succeeded), `convert` issues exactly the metadata probe, one transcode
and the chapter probe — the transcoder is not invoked a second time and
no split is attempted — and aborts with the probe's error. -/
theorem convert_aborts_on_chapter_probe_failure (o : Options) (metaRun chapRun : ProbeRun)
    (v : Json) (e : PyError)
    (hm : get_metainfo_result metaRun = .ok v)
    (hc : get_chapters_result chapRun = .error e) :
    convert o metaRun chapRun =
      ([get_metainfo_invoc (convertFfmpeg o) o.input,
        convert_aax_ap3_invoc (convertFfmpeg o) o.input temp_name,
        get_chapters_invoc (convertFfmpeg o) temp_name], some e) := by
  unfold convert
  rw [hm, hc]

/-- Witness for C7: the spec's scenario — chapter probe exits 1 with
empty stdout — aborts the concrete pipeline after a single transcode
invocation and with no split invocation. -/
theorem convert_aborts_on_chapter_probe_failure_witness :
    convert ⟨"in.aax", "outdir", "out", "T", "/usr/bin"⟩ ⟨0, ["\x7b\x7d"]⟩ ⟨1, []⟩ =
      ([get_metainfo_invoc (convertFfmpeg ⟨"in.aax", "outdir", "out", "T", "/usr/bin"⟩) "in.aax",
        convert_aax_ap3_invoc (convertFfmpeg ⟨"in.aax", "outdir", "out", "T", "/usr/bin"⟩)
          "in.aax" temp_name,
        get_chapters_invoc (convertFfmpeg ⟨"in.aax", "outdir", "out", "T", "/usr/bin"⟩)
          temp_name], some (.jsonDecodeError "Expecting value")) :=
  convert_aborts_on_chapter_probe_failure _ _ _ (Json.obj [])
    (.jsonDecodeError "Expecting value") rfl rfl

theorem splitChapters_spec (f : Ffmpeg) (out title : String) :
    ∀ (chs : List Json) (i : Nat),
      (∀ ch ∈ chs, ∃ st en, chapterTimes ch = .ok (st, en)) →
      (splitChapters f out title chs i).2 = none ∧
      (splitChapters f out title chs i).1.length = chs.length ∧
      (∀ k ch, chs[k]? = some ch →
        ∃ st en, chapterTimes ch = .ok (st, en) ∧
          (splitChapters f out title chs i).1[k]? =
            some (split_ap3_invoc f temp_name
              (out ++ "/" ++ (fileTitle title (i + k) ++ ".mp3"))
              st (chapterDur st en) (fileTitle title (i + k)))) := by
  intro chs
  induction chs with
  | nil =>
    intro i h
    refine ⟨rfl, rfl, fun k ch hk => ?_⟩
    simp at hk
  | cons ch rest ih =>
    intro i h
    rcases h ch (List.mem_cons_self _ _) with ⟨st, en, hst⟩
    have hrest := ih (i + 1) (fun c hc => h c (List.mem_cons_of_mem _ hc))
    have hstep : splitChapters f out title (ch :: rest) i =
        (split_ap3_invoc f temp_name (out ++ "/" ++ (fileTitle title i ++ ".mp3")) st
           (chapterDur st en) (fileTitle title i) ::
           (splitChapters f out title rest (i + 1)).1,
         (splitChapters f out title rest (i + 1)).2) := by
      simp [splitChapters, hst]
    rw [hstep]
    refine ⟨hrest.1, by simp [hrest.2.1], ?_⟩
    intro k c hk
    cases k with
    | zero =>
      simp only [List.getElem?_cons_zero, Option.some.injEq] at hk
      subst hk
      exact ⟨st, en, hst, by simp⟩
    | succ m =>
      simp only [List.getElem?_cons_succ] at hk
      rcases hrest.2.2 m c hk with ⟨st2, en2, hst2, hidx⟩
      refine ⟨st2, en2, hst2, ?_⟩
      have harith : i + (m + 1) = i + 1 + m := by
        omega
      rw [harith]
      simpa using hidx

/-- C6: with both probes succeeding, the chapter probe yielding the list
`chs`, and every chapter's time fields parsing, `convert` issues
exactly one split invocation per chapter — `chs.length` of them, in the
tool's order with no re-sorting — where the `k`-th (0-based) split
carries the zero-padded ordinal `k+1` (001 upwards, contiguous), the
output file `"<ordinal> - <sanitized title>.mp3"` inside the output
directory, and that chapter's start time and clamped duration. -/
theorem convert_one_split_per_chapter (o : Options) (metaRun chapRun : ProbeRun)
    (mv : Json) (chs : List Json)
    (hm : get_metainfo_result metaRun = .ok mv)
    (hc : get_chapters_result chapRun = .ok (Json.arr chs))
    (ht : ∀ ch ∈ chs, ∃ st en, chapterTimes ch = .ok (st, en)) :
    convert o metaRun chapRun =
      ([get_metainfo_invoc (convertFfmpeg o) o.input,
        convert_aax_ap3_invoc (convertFfmpeg o) o.input temp_name,
        get_chapters_invoc (convertFfmpeg o) temp_name] ++
        (splitChapters (convertFfmpeg o) o.out_path o.title chs 1).1, none) ∧
    (splitChapters (convertFfmpeg o) o.out_path o.title chs 1).1.length = chs.length ∧
    (∀ k ch, chs[k]? = some ch →
      ∃ st en, chapterTimes ch = .ok (st, en) ∧
        (splitChapters (convertFfmpeg o) o.out_path o.title chs 1).1[k]? =
          some (split_ap3_invoc (convertFfmpeg o) temp_name
            (o.out_path ++ "/" ++ (fileTitle o.title (1 + k) ++ ".mp3"))
            st (chapterDur st en) (fileTitle o.title (1 + k)))) := by
  have hspec := splitChapters_spec (convertFfmpeg o) o.out_path o.title chs 1 ht
  refine ⟨?_, hspec.2.1, hspec.2.2⟩
  unfold convert
  rw [hm, hc]
  simp [pyIter, hspec.1]

/-- Witness for C6: a concrete single-chapter probe response produces
exactly one split invocation. -/
theorem convert_one_split_per_chapter_witness :
    (splitChapters (convertFfmpeg ⟨"in.aax", "outdir", "out", "T", "/usr/bin"⟩) "outdir" "T"
      [Json.obj [("start_time", Json.str "0.0"), ("end_time", Json.str "1.0")]] 1).1.length =
      1 :=
  (convert_one_split_per_chapter ⟨"in.aax", "outdir", "out", "T", "/usr/bin"⟩
    ⟨0, ["\x7b\x7d"]⟩
    ⟨0, ["\x7b\"chapters\": [\x7b\"start_time\": \"0.0\", \"end_time\": \"1.0\"\x7d]\x7d"]⟩
    (Json.obj []) [Json.obj [("start_time", Json.str "0.0"), ("end_time", Json.str "1.0")]]
    rfl rfl
    (by
      intro ch hch
      rcases List.mem_singleton.mp hch with rfl
      exact ⟨_, _, rfl⟩)).2.1

/-- Witness for C3 at a concrete input, extracting the closed length
bound from `safe_name_sanitized`. -/
theorem safe_name_sanitized_witness :
    (safe_name "My/Book: Ch 1" "fb").length ≤ 180 :=
  (safe_name_sanitized "My/Book: Ch 1" "fb").2.2.2.2

/-- Witness for C8 at a concrete value: the formatted zero has a
six-digit fraction part. -/
theorem split_ap3_invoc_args_witness :
    ∃ p r, fmt6 0 = p ++ "." ++ pad6frac r ∧ r < 1000000 ∧ (pad6frac r).length = 6 :=
  (split_ap3_invoc_args ⟨"/usr/bin", "11bb9604"⟩ "a" "b" 0 0 "T").2 0

/-- Witness for C9 at a concrete options value: the pipeline's
credential is the default. -/
theorem credential_hardcoded_witness :
    (convertFfmpeg ⟨"in.aax", "outdir", "out", "T", "/usr/bin"⟩).activate_bytes = "11bb9604" :=
  (credential_hardcoded ⟨"in.aax", "outdir", "out", "T", "/usr/bin"⟩ "i" "o" "x").1
